import Mathlib

/-!
Verification development for the jk-webapi-helper repository.

The repository is a desktop utility that builds, signs and sends
`multipart/form-data` HTTP requests, manages grouped request presets and a
bounded request history persisted to local storage, and transcodes request
payloads between UTF-8 and Base64.

This file gives a shallow embedding of the core logic:
- the platform codecs the code calls (`btoa`/`atob` forgiving Base64,
  UTF-8 byte transcoding, MD5) modelled from their standard definitions;
- the repository functions (`encodeUtf8ToBase64`, `decodeBase64ToUtf8`,
  `md5UpperHex`, `executeMultipartRequest`, `getTimestamp`, and the
  storage operations of `src/lib/storage.ts`) translated from the source;
and proves the stated properties about them.
-/

set_option maxRecDepth 4000

/-! ## Base64 platform model

The repository (browser path of `src/unnamed/part_003`, a Tauri webview where
`Buffer` is undefined) encodes with `btoa(unescape(encodeURIComponent(s)))`
and decodes with `decodeURIComponent(escape(atob(s)))`.  `btoa` over the
UTF-8 byte string is standard RFC 4648 Base64; `atob` is the WHATWG
forgiving-base64 decoder.  We model byte strings as `List Nat` with each
element < 256. -/

/-- The 64 characters of the standard Base64 alphabet, in value order. -/
def base64Chars : List Char :=
  "ABCDEFGHIJKLMNOPQRSTUVWXYZabcdefghijklmnopqrstuvwxyz0123456789+/".data

/-- Character for a 6-bit value (values ≥ 64 never occur for byte input). -/
def b64Char (n : Nat) : Char := base64Chars.getD n 'A'

/-- Value of a Base64 alphabet character; `none` for any other character
(including the padding character). -/
def b64Index (c : Char) : Option Nat := base64Chars.findIdx? (fun d => d == c)

/-- Base64 body (no padding) of a byte list, three bytes to four characters,
with the standard 2- and 3-character final group for 1 or 2 leftover bytes. -/
def b64Body : List Nat → List Char
  | [] => []
  | [b0] => [b64Char (b0 / 4), b64Char (b0 % 4 * 16)]
  | [b0, b1] => [b64Char (b0 / 4), b64Char (b0 % 4 * 16 + b1 / 16), b64Char (b1 % 16 * 4)]
  | b0 :: b1 :: b2 :: rest =>
      b64Char (b0 / 4) :: b64Char (b0 % 4 * 16 + b1 / 16) ::
      b64Char (b1 % 16 * 4 + b2 / 64) :: b64Char (b2 % 64) :: b64Body rest

/-- Padding characters `btoa` appends after the body. -/
def b64Pad : List Nat → List Char
  | [] => []
  | [_] => ['=', '=']
  | [_, _] => ['=']
  | _ :: _ :: _ :: rest => b64Pad rest

/-- Model of the platform `btoa` on a byte list: Base64 body plus `=` padding. -/
def btoa (bs : List Nat) : String := String.mk (b64Body bs ++ b64Pad bs)

/-- ASCII whitespace as removed by the WHATWG forgiving-base64 decoder. -/
def isAsciiWs (c : Char) : Bool :=
  c == ' ' || c == '\t' || c == '\n' || c == '\r' || c.toNat == 12

/-- Remove one trailing `=` character, when present. -/
def dropOneEq (cs : List Char) : List Char :=
  if cs.getLast? = some '=' then cs.dropLast else cs

/-- Remove up to two trailing `=` characters. -/
def dropTrailingEqs (cs : List Char) : List Char := dropOneEq (dropOneEq cs)

/-- Padding removal step of forgiving-base64: only when the length is a
multiple of four may one or two trailing `=` be stripped. -/
def stripPad (cs : List Char) : List Char :=
  if cs.length % 4 = 0 then dropTrailingEqs cs else cs

/-- Core forgiving-base64 bit collection over padding-free characters: fails
on any character outside the alphabet and on a leftover single character
(length ≡ 1 mod 4). -/
def atobCore : List Char → Option (List Nat)
  | [] => some []
  | [_] => none
  | [c0, c1] => do
      let v0 ← b64Index c0
      let v1 ← b64Index c1
      pure [v0 * 4 + v1 / 16]
  | [c0, c1, c2] => do
      let v0 ← b64Index c0
      let v1 ← b64Index c1
      let v2 ← b64Index c2
      pure [v0 * 4 + v1 / 16, v1 % 16 * 16 + v2 / 4]
  | c0 :: c1 :: c2 :: c3 :: rest => do
      let v0 ← b64Index c0
      let v1 ← b64Index c1
      let v2 ← b64Index c2
      let v3 ← b64Index c3
      let tl ← atobCore rest
      pure ((v0 * 4 + v1 / 16) :: (v1 % 16 * 16 + v2 / 4) :: (v2 % 4 * 64 + v3) :: tl)

/-- Model of the platform `atob` (WHATWG forgiving-base64 decode): remove
ASCII whitespace, strip permitted padding, then collect bits; `none` models
the thrown `InvalidCharacterError`. -/
def atob (s : String) : Option (List Nat) :=
  atobCore (stripPad (s.data.filter (fun c => !isAsciiWs c)))

/-! ## UTF-8 platform model

`Buffer.from(s, "utf-8")` / `unescape(encodeURIComponent(s))` produce the
UTF-8 bytes of a string; `decodeURIComponent(escape(bytes))` decodes UTF-8,
throwing `URIError` on malformed sequences (modelled as `none`). -/

/-- UTF-8 encoding of a Unicode scalar value. -/
def utf8EncodeChar (c : Nat) : List Nat :=
  if c < 0x80 then [c]
  else if c < 0x800 then [0xC0 + c / 64, 0x80 + c % 64]
  else if c < 0x10000 then [0xE0 + c / 4096, 0x80 + c / 64 % 64, 0x80 + c % 64]
  else [0xF0 + c / 262144, 0x80 + c / 4096 % 64, 0x80 + c / 64 % 64, 0x80 + c % 64]

/-- UTF-8 bytes of a character list. -/
def utf8EncodeChars (cs : List Char) : List Nat :=
  cs.flatMap (fun c => utf8EncodeChar c.toNat)

/-- UTF-8 bytes of a string. -/
def utf8Encode (s : String) : List Nat := utf8EncodeChars s.data

/-- Is `b` a UTF-8 continuation byte? -/
def isCont (b : Nat) : Bool := 0x80 ≤ b && b < 0xC0

/-- Strict UTF-8 decoder: rejects truncated sequences, stray continuation
bytes, overlong encodings, surrogate code points and values above U+10FFFF,
exactly as `decodeURIComponent` does. -/
def utf8DecodeList : List Nat → Option (List Char)
  | [] => some []
  | [b0] => if b0 < 0x80 then some [Char.ofNat b0] else none
  | [b0, b1] =>
      if b0 < 0x80 then (utf8DecodeList [b1]).map (fun cs => Char.ofNat b0 :: cs)
      else if b0 < 0xE0 then
        if 0xC2 ≤ b0 && isCont b1 then
          some [Char.ofNat ((b0 - 0xC0) * 64 + (b1 - 0x80))]
        else none
      else none
  | [b0, b1, b2] =>
      if b0 < 0x80 then (utf8DecodeList [b1, b2]).map (fun cs => Char.ofNat b0 :: cs)
      else if b0 < 0xE0 then
        if 0xC2 ≤ b0 && isCont b1 then
          (utf8DecodeList [b2]).map
            (fun cs => Char.ofNat ((b0 - 0xC0) * 64 + (b1 - 0x80)) :: cs)
        else none
      else if b0 < 0xF0 then
        let v := (b0 - 0xE0) * 4096 + (b1 - 0x80) * 64 + (b2 - 0x80)
        if isCont b1 && isCont b2 && 0x800 ≤ v && (v < 0xD800 || 0xE000 ≤ v) then
          some [Char.ofNat v]
        else none
      else none
  | b0 :: b1 :: b2 :: b3 :: rest =>
      if b0 < 0x80 then
        (utf8DecodeList (b1 :: b2 :: b3 :: rest)).map (fun cs => Char.ofNat b0 :: cs)
      else if b0 < 0xE0 then
        if 0xC2 ≤ b0 && isCont b1 then
          (utf8DecodeList (b2 :: b3 :: rest)).map
            (fun cs => Char.ofNat ((b0 - 0xC0) * 64 + (b1 - 0x80)) :: cs)
        else none
      else if b0 < 0xF0 then
        let v := (b0 - 0xE0) * 4096 + (b1 - 0x80) * 64 + (b2 - 0x80)
        if isCont b1 && isCont b2 && 0x800 ≤ v && (v < 0xD800 || 0xE000 ≤ v) then
          (utf8DecodeList (b3 :: rest)).map (fun cs => Char.ofNat v :: cs)
        else none
      else if b0 < 0xF8 then
        let v := (b0 - 0xF0) * 262144 + (b1 - 0x80) * 4096 +
          (b2 - 0x80) * 64 + (b3 - 0x80)
        if isCont b1 && isCont b2 && isCont b3 && 0x10000 ≤ v && v < 0x110000 then
          (utf8DecodeList rest).map (fun cs => Char.ofNat v :: cs)
        else none
      else none

/-! ## MD5 platform model

`md5UpperHex` in `src/lib/sign.ts` first invokes the native `md5_upper_hex`
Tauri command and falls back to `CryptoJS.MD5`; the spec requires the two
providers to be byte-for-byte interchangeable implementations of standard
MD5 (RFC 1321), which is what we model here (the native command's Rust
source lives outside `src/`). -/

/-- The 64 MD5 round constants of RFC 1321. -/
def md5K : List Nat :=
  [0xd76aa478, 0xe8c7b756, 0x242070db, 0xc1bdceee,
   0xf57c0faf, 0x4787c62a, 0xa8304613, 0xfd469501,
   0x698098d8, 0x8b44f7af, 0xffff5bb1, 0x895cd7be,
   0x6b901122, 0xfd987193, 0xa679438e, 0x49b40821,
   0xf61e2562, 0xc040b340, 0x265e5a51, 0xe9b6c7aa,
   0xd62f105d, 0x02441453, 0xd8a1e681, 0xe7d3fbc8,
   0x21e1cde6, 0xc33707d6, 0xf4d50d87, 0x455a14ed,
   0xa9e3e905, 0xfcefa3f8, 0x676f02d9, 0x8d2a4c8a,
   0xfffa3942, 0x8771f681, 0x6d9d6122, 0xfde5380c,
   0xa4beea44, 0x4bdecfa9, 0xf6bb4b60, 0xbebfbc70,
   0x289b7ec6, 0xeaa127fa, 0xd4ef3085, 0x04881d05,
   0xd9d4d039, 0xe6db99e5, 0x1fa27cf8, 0xc4ac5665,
   0xf4292244, 0x432aff97, 0xab9423a7, 0xfc93a039,
   0x655b59c3, 0x8f0ccc92, 0xffeff47d, 0x85845dd1,
   0x6fa87e4f, 0xfe2ce6e0, 0xa3014314, 0x4e0811a1,
   0xf7537e82, 0xbd3af235, 0x2ad7d2bb, 0xeb86d391]

/-- MD5 per-round left-rotation amounts. -/
def md5S (i : Nat) : Nat :=
  let j := i % 4
  if i < 16 then [7, 12, 17, 22].getD j 0
  else if i < 32 then [5, 9, 14, 20].getD j 0
  else if i < 48 then [4, 11, 16, 23].getD j 0
  else [6, 10, 15, 21].getD j 0

/-- MD5 nonlinear mixing function for round `i`. -/
def md5F (i b c d : Nat) : Nat :=
  if i < 16 then (b &&& c) ||| ((b ^^^ 4294967295) &&& d)
  else if i < 32 then (d &&& b) ||| ((d ^^^ 4294967295) &&& c)
  else if i < 48 then b ^^^ c ^^^ d
  else c ^^^ (b ||| (d ^^^ 4294967295))

/-- Message-word index used in round `i`. -/
def md5G (i : Nat) : Nat :=
  if i < 16 then i
  else if i < 32 then (5 * i + 1) % 16
  else if i < 48 then (3 * i + 5) % 16
  else 7 * i % 16

/-- Left rotation of a 32-bit value by `s` places. -/
def rotl32 (x s : Nat) : Nat := (x * 2 ^ s + x / 2 ^ (32 - s)) % 4294967296

/-- One MD5 round on state `(a, b, c, d)` with message words `m`. -/
def md5Round (m : List Nat) (st : Nat × Nat × Nat × Nat) (i : Nat) :
    Nat × Nat × Nat × Nat :=
  match st with
  | (a, b, c, d) =>
      let f := (md5F i b c d + a + md5K.getD i 0 + m.getD (md5G i) 0) % 4294967296
      (d, (b + rotl32 f (md5S i)) % 4294967296, b, c)

/-- Process one 16-word block: 64 rounds then the feed-forward addition. -/
def md5Block (st : Nat × Nat × Nat × Nat) (m : List Nat) : Nat × Nat × Nat × Nat :=
  match st, (List.range 64).foldl (md5Round m) st with
  | (a0, b0, c0, d0), (a, b, c, d) =>
      ((a0 + a) % 4294967296, (b0 + b) % 4294967296,
       (c0 + c) % 4294967296, (d0 + d) % 4294967296)

/-- Little-endian 32-bit words of a byte list whose length is a multiple of 4. -/
def leWords : List Nat → List Nat
  | b0 :: b1 :: b2 :: b3 :: rest =>
      (b0 + 256 * b1 + 65536 * b2 + 16777216 * b3) :: leWords rest
  | _ => []

/-- Split a word list into 16-word blocks. -/
def blocks16 : List Nat → List (List Nat)
  | w0 :: w1 :: w2 :: w3 :: w4 :: w5 :: w6 :: w7 ::
    w8 :: w9 :: w10 :: w11 :: w12 :: w13 :: w14 :: w15 :: rest =>
      [w0, w1, w2, w3, w4, w5, w6, w7, w8, w9, w10, w11, w12, w13, w14, w15] ::
      blocks16 rest
  | _ => []

/-- MD5 padding: a `0x80` byte, zeros to 56 mod 64, then the 64-bit
little-endian bit length. -/
def md5Pad (bs : List Nat) : List Nat :=
  let L := bs.length
  bs ++ 128 :: List.replicate ((119 - L % 64) % 64) 0 ++
    (List.range 8).map (fun k => 8 * L / 2 ^ (8 * k) % 256)

/-- MD5 initial state. -/
def md5Init : Nat × Nat × Nat × Nat := (0x67452301, 0xefcdab89, 0x98badcfe, 0x10325476)

/-- Little-endian bytes of a 32-bit word. -/
def leBytes4 (w : Nat) : List Nat := [w % 256, w / 256 % 256, w / 65536 % 256, w / 16777216 % 256]

/-- MD5 digest (16 bytes) of a byte list. -/
def md5 (bs : List Nat) : List Nat :=
  match (blocks16 (leWords (md5Pad bs))).foldl md5Block md5Init with
  | (a, b, c, d) => leBytes4 a ++ leBytes4 b ++ leBytes4 c ++ leBytes4 d

/-- The 16 uppercase hexadecimal digit characters. -/
def hexDigits : List Char := "0123456789ABCDEF".data

/-- Two uppercase hex characters of a byte. -/
def byteHexUpper (b : Nat) : List Char := [hexDigits.getD (b / 16) '0', hexDigits.getD (b % 16) '0']

/-- Uppercase hexadecimal rendering of a byte list. -/
def hexUpperOfBytes (bs : List Nat) : String := String.mk (bs.flatMap byteHexUpper)

/-! ## Data model (src/lib/types.ts)

Optional TypeScript fields become `Option`; JS numbers that the code only
uses as counts become `Nat`; `status: number | null` becomes `Option Int`. -/

/-- A single request definition (`PresetRequest`, src/lib/types.ts). -/
structure PresetRequest where
  url : String
  appkey : String
  password : String
  ver : String
  timestamp : Option String
  dataRaw : String
  dataB64 : Option String
  deriving Repr, DecidableEq

/-- A named saved request (`PresetItem`, src/lib/types.ts). -/
structure PresetItem where
  id : String
  name : String
  request : PresetRequest
  updatedAt : String
  deriving Repr, DecidableEq

/-- A named group of presets (`GroupItem`, src/lib/types.ts). -/
structure GroupItem where
  id : String
  name : String
  presets : List PresetItem
  updatedAt : String
  deriving Repr, DecidableEq

/-- The groups root aggregate (`StorageGroups`, src/lib/types.ts). -/
structure StorageGroups where
  groups : List GroupItem
  lastUsedGroupId : Option String
  lastUsedPresetId : Option String
  deriving Repr, DecidableEq

/-- The `requestSummary` of a history entry (src/lib/types.ts). -/
structure RequestSummary where
  url : String
  appkey : String
  ver : String
  timestamp : String
  sign : String
  dataB64Len : Nat
  deriving Repr, DecidableEq

/-- One history entry (`HistoryItem`, src/lib/types.ts). -/
structure HistoryItem where
  id : String
  ts : String
  durationMs : Nat
  status : Option Int
  ok : Bool
  requestSummary : RequestSummary
  request : Option PresetRequest
  responseText : String
  errorMessage : Option String
  deriving Repr, DecidableEq

/-- The history root aggregate (`StorageHistory`, src/lib/types.ts). -/
structure StorageHistory where
  items : List HistoryItem
  limit : Option Nat
  deriving Repr, DecidableEq

/-! ## Codec (src/unnamed/part_003, the repository's base64 module) -/

/-- Return shape of `decodeBase64ToUtf8`. -/
structure DecodeResult where
  data : Option String
  error : Option String
  deriving Repr, DecidableEq

/-- `encodeUtf8ToBase64` (src/unnamed/part_003 lines 1-12): empty input maps
to the empty string; otherwise the Base64 of the UTF-8 bytes of the input
(the `Buffer` path and the `btoa(unescape(encodeURIComponent(s)))` path
compute the same encoding; we model the browser path the Tauri webview runs). -/
def encodeUtf8ToBase64 (input : String) : String :=
  if input = "" then "" else btoa (utf8Encode input)

/-- `decodeBase64ToUtf8` (src/unnamed/part_003 lines 14-32), browser path:
empty input yields `data = ""`; otherwise `decodeURIComponent(escape(atob(input)))`
with thrown errors caught and returned in `error` (we carry the exception
names as the diagnostic messages). -/
def decodeBase64ToUtf8 (input : String) : DecodeResult :=
  if input = "" then { data := some "", error := none }
  else
    match atob input with
    | none => { data := none, error := some "InvalidCharacterError" }
    | some bytes =>
        match utf8DecodeList bytes with
        | none => { data := none, error := some "URI malformed" }
        | some cs => { data := some (String.mk cs), error := none }

/-! ## Signer (src/lib/sign.ts) -/

/-- `md5UpperHex` (src/lib/sign.ts lines 4-12): the empty string is returned
unchanged (`if (!input) return ""`); any other input is hashed with MD5 and
rendered as uppercase hex.  The native provider and the CryptoJS fallback
both compute standard MD5, modelled by `md5`. -/
def md5UpperHex (input : String) : String :=
  if input = "" then "" else hexUpperOfBytes (md5 (utf8Encode input))

/-! ## Time (src/lib/time.ts) -/

/-- A broken-down local time, standing in for a JS `Date`. -/
structure DateTime where
  year : Nat
  month : Nat
  day : Nat
  hour : Nat
  minute : Nat
  second : Nat
  deriving Repr, DecidableEq

/-- Two-digit zero-padded decimal rendering of a field value below 100. -/
def pad2 (n : Nat) : List Char := [Nat.digitChar (n / 10 % 10), Nat.digitChar (n % 10)]

/-- Four-digit zero-padded decimal rendering of a year below 10000. -/
def pad4 (n : Nat) : List Char :=
  [Nat.digitChar (n / 1000 % 10), Nat.digitChar (n / 100 % 10),
   Nat.digitChar (n / 10 % 10), Nat.digitChar (n % 10)]

/-- In-range field values of a real calendar date, the domain on which this
model of `date-fns format` agrees with the library. -/
def DateTime.Valid (d : DateTime) : Prop :=
  0 < d.year ∧ d.year ≤ 9999 ∧ 1 ≤ d.month ∧ d.month ≤ 12 ∧ 1 ≤ d.day ∧ d.day ≤ 31 ∧
    d.hour ≤ 23 ∧ d.minute ≤ 59 ∧ d.second ≤ 59

/-- `getTimestamp` (src/lib/time.ts lines 3-5): `format(date, "yyyyMMddHHmmss")`. -/
def getTimestamp (d : DateTime) : String :=
  String.mk (pad4 d.year ++ pad2 d.month ++ pad2 d.day ++
    pad2 d.hour ++ pad2 d.minute ++ pad2 d.second)

/-! ## Request Executor (src/lib/request.ts)

The model covers the request-assembly part of `executeMultipartRequest`
(lines 20-38): timestamp resolution, payload resolution, signing, and the
ordered multipart field list, with the current time passed explicitly.  The
network dispatch, timing and response handling (lines 39-59) act after the
assembled values and are outside the model. -/

/-- `RequestOptions` (src/lib/request.ts lines 5-9). -/
structure RequestOptions where
  request : PresetRequest
  timeoutMs : Nat
  forceTime : Option String
  deriving Repr, DecidableEq

/-- The values `executeMultipartRequest` has fixed at the moment it issues
the POST: effective timestamp, effective payload, signature, and the
multipart form fields in append order. -/
structure PreparedRequest where
  url : String
  timestamp : String
  dataB64 : String
  sign : String
  form : List (String × String)
  deriving Repr, DecidableEq

/-- Effective timestamp: `forceTime ?? request.timestamp ?? getTimestamp()`. -/
def effTimestamp (options : RequestOptions) (now : DateTime) : String :=
  match options.forceTime with
  | some t => t
  | none =>
      match options.request.timestamp with
      | some t => t
      | none => getTimestamp now

/-- Effective payload: `request.dataB64 && request.dataB64.length > 0 ?
request.dataB64 : ""`. -/
def effDataB64 (request : PresetRequest) : String :=
  match request.dataB64 with
  | some s => if 0 < s.length then s else ""
  | none => ""

/-- `executeMultipartRequest` (src/lib/request.ts lines 20-38), assembly part. -/
def executeMultipartRequest (options : RequestOptions) (now : DateTime) : PreparedRequest :=
  let timestamp := effTimestamp options now
  let dataB64 := effDataB64 options.request
  let sign := md5UpperHex (timestamp ++ dataB64 ++ options.request.password)
  { url := options.request.url
    timestamp := timestamp
    dataB64 := dataB64
    sign := sign
    form := [("appkey", options.request.appkey), ("timestamp", timestamp),
             ("data", dataB64), ("sign", sign),
             ("ver", if options.request.ver = "" then "1" else options.request.ver)] }

/-! ## Persistence Store (src/lib/storage.ts)

The operations are pure transforms followed by a durable write of the
returned aggregate (`saveGroups(result)` / `saveHistory(result)`); the
claims below concern the returned aggregates, except `importAll`, whose
write behaviour is modelled explicitly through `LocalStore`.  The calls
`generateId()` and `new Date().toISOString()` are modelled as explicit
`newId` / `now` arguments. -/

/-- Default history bound, `HISTORY_LIMIT` (src/lib/storage.ts line 13). -/
def HISTORY_LIMIT : Nat := 500

/-- Per-group transform inside `upsertPreset` (src/lib/storage.ts lines
63-71): a group with a different id is returned unchanged; in the target
group the preset is replaced where its id already occurs
(`findIndex !== -1`, i.e. some element matches) and appended otherwise. -/
def upsertPresetGroup (groupId : String) (preset : PresetItem) (now : String)
    (group : GroupItem) : GroupItem :=
  if group.id ≠ groupId then group
  else
    let presets :=
      if group.presets.any (fun p => p.id == preset.id) then
        group.presets.map (fun p => if p.id == preset.id then preset else p)
      else group.presets ++ [preset]
    { group with presets := presets, updatedAt := now }

/-- `upsertPreset` (src/lib/storage.ts lines 58-80). -/
def upsertPreset (groupId : String) (preset : PresetItem) (now : String)
    (existing : StorageGroups) : StorageGroups :=
  { existing with
    groups := existing.groups.map (upsertPresetGroup groupId preset now)
    lastUsedGroupId := some groupId
    lastUsedPresetId := some preset.id }

/-- `createGroup` (src/lib/storage.ts lines 82-96). -/
def createGroup (name : String) (newId : String) (now : String)
    (existing : StorageGroups) : StorageGroups :=
  { groups := existing.groups ++ [{ id := newId, name := name, presets := [], updatedAt := now }]
    lastUsedGroupId := some newId
    lastUsedPresetId := none }

/-- `deleteGroup` (src/lib/storage.ts lines 98-114).  Note the retention
check for `lastUsedPresetId` scans `existing.groups`, the PRE-deletion
list; the JS truthiness guard `existing.lastUsedPresetId && …` also maps
the empty string to `undefined`. -/
def deleteGroup (groupId : String) (existing : StorageGroups) : StorageGroups :=
  { existing with
    groups := existing.groups.filter (fun g => g.id != groupId)
    lastUsedGroupId :=
      match existing.lastUsedGroupId with
      | some gid => if gid == groupId then none else some gid
      | none => none
    lastUsedPresetId :=
      match existing.lastUsedPresetId with
      | some pid =>
          if pid != "" &&
              existing.groups.any (fun g => g.presets.any (fun p => p.id == pid)) then
            some pid
          else none
      | none => none }

/-- `deletePreset` (src/lib/storage.ts lines 116-133). -/
def deletePreset (groupId : String) (presetId : String) (now : String)
    (existing : StorageGroups) : StorageGroups :=
  { existing with
    groups := existing.groups.map (fun g =>
      if g.id == groupId then
        { g with presets := g.presets.filter (fun p => p.id != presetId), updatedAt := now }
      else g)
    lastUsedPresetId :=
      match existing.lastUsedPresetId with
      | some pid => if pid == presetId then none else some pid
      | none => none }

/-- `renameGroup` (src/lib/storage.ts lines 135-142). -/
def renameGroup (groupId : String) (name : String) (now : String)
    (existing : StorageGroups) : StorageGroups :=
  { existing with
    groups := existing.groups.map (fun g =>
      if g.id == groupId then { g with name := name, updatedAt := now } else g) }

/-- `clonePreset` (src/lib/storage.ts lines 144-159). -/
def clonePreset (groupId : String) (preset : PresetItem) (cloneId : String) (now : String)
    (existing : StorageGroups) : StorageGroups :=
  let clone : PresetItem :=
    { preset with id := cloneId, name := preset.name ++ " Copy", updatedAt := now }
  { existing with
    groups := existing.groups.map (fun g =>
      if g.id == groupId then
        { g with presets := g.presets ++ [clone], updatedAt := now }
      else g) }

/-- `pushHistory` (src/lib/storage.ts lines 175-181): prepend the entry and
truncate to the resolved limit (`existing.limit ?? HISTORY_LIMIT`). -/
def pushHistory (entry : HistoryItem) (existing : StorageHistory) : StorageHistory :=
  let limit := existing.limit.getD HISTORY_LIMIT
  { existing with items := (entry :: existing.items).take limit, limit := some limit }

/-- `clearHistory` (src/lib/storage.ts lines 183-187). -/
def clearHistory : StorageHistory := { items := [], limit := some HISTORY_LIMIT }

/-- The durable key-value store: the two namespaced `localStorage` slots
holding the persisted aggregates (`none` = key absent). -/
structure LocalStore where
  groupsSlot : Option StorageGroups
  historySlot : Option StorageHistory
  deriving Repr, DecidableEq

/-- `saveGroups` (src/lib/storage.ts lines 45-47) acting on the store. -/
def saveGroups (data : StorageGroups) (st : LocalStore) : LocalStore :=
  { st with groupsSlot := some data }

/-- `saveHistory` (src/lib/storage.ts lines 53-55) acting on the store. -/
def saveHistory (data : StorageHistory) (st : LocalStore) : LocalStore :=
  { st with historySlot := some data }

/-- The `data: unknown` argument of `importAll`: either not an object
(covers `null`, `undefined` and primitives) or an object whose `groups` /
`history` fields may each be absent.  The source guards with JS truthiness
(`!payload.groups || !payload.history`); on object-valued fields (the typed
shape of both aggregates) truthiness coincides with presence, which is how
the field options are read here. -/
inductive ImportData where
  | notObject : ImportData
  | jsObject : Option StorageGroups → Option StorageHistory → ImportData
  deriving Repr, DecidableEq

/-- Shape accepted by `importAll`: an object with both aggregates present. -/
def ImportData.wellShaped : ImportData → Bool
  | .jsObject (some _) (some _) => true
  | _ => false

/-- `importAll` (src/lib/storage.ts lines 196-203), with its writes to the
durable store made explicit: on the accepted shape it saves both aggregates
and returns them; otherwise it returns `null` and leaves the store alone. -/
def importAll (data : ImportData) (st : LocalStore) :
    Option (StorageGroups × StorageHistory) × LocalStore :=
  match data with
  | .notObject => (none, st)
  | .jsObject none _ => (none, st)
  | .jsObject _ none => (none, st)
  | .jsObject (some g) (some h) => (some (g, h), saveHistory h (saveGroups g st))

/-! ## Spec-side invariant and concrete fixtures -/

/-- Spec §3 (StorageGroups): `lastUsedGroupId`, when present, names a group
existing in `groups`.  Stated from the spec's words to compare the store
operations against. -/
def refValidG (s : StorageGroups) : Bool :=
  match s.lastUsedGroupId with
  | none => true
  | some gid => s.groups.any (fun g => g.id == gid)

/-- Spec §3 (StorageGroups): `lastUsedPresetId`, when present, names a preset
existing inside some group of `groups`.  Stated from the spec's words. -/
def refValidP (s : StorageGroups) : Bool :=
  match s.lastUsedPresetId with
  | none => true
  | some pid => s.groups.any (fun g => g.presets.any (fun p => p.id == pid))

/-- The full referential-integrity invariant of the spec on the groups
aggregate. -/
def lastUsedRefsValid (s : StorageGroups) : Bool := refValidG s && refValidP s

/-- A concrete request definition used by the fixtures. -/
def sampleRequest : PresetRequest :=
  { url := "http://localhost/api", appkey := "k", password := "secret", ver := "1",
    timestamp := some "20240115093000", dataRaw := "", dataB64 := some "eyJhIjoxfQ==" }

/-- Concrete executor options: no forced time, stored timestamp present. -/
def sampleOptions : RequestOptions :=
  { request := sampleRequest, timeoutMs := 1000, forceTime := none }

/-- A concrete broken-down time. -/
def sampleNow : DateTime :=
  { year := 2024, month := 1, day := 15, hour := 9, minute := 30, second := 0 }

/-- Preset fixture named by its id. -/
def mkPreset (pid : String) : PresetItem :=
  { id := pid, name := pid, request := sampleRequest, updatedAt := "t0" }

/-- Group fixture named by its id. -/
def mkGroup (gid : String) (ps : List PresetItem) : GroupItem :=
  { id := gid, name := gid, presets := ps, updatedAt := "t0" }

/-- A concrete history entry. -/
def sampleEntry : HistoryItem :=
  { id := "h1", ts := "t", durationMs := 0, status := none, ok := false,
    requestSummary :=
      { url := "u", appkey := "k", ver := "1", timestamp := "t", sign := "", dataB64Len := 0 },
    request := none, responseText := "", errorMessage := none }

/-- Aggregate whose last-used pointers both point into group `g1`. -/
def cexGroupsA : StorageGroups :=
  { groups := [mkGroup "g1" [mkPreset "p1"]],
    lastUsedGroupId := some "g1", lastUsedPresetId := some "p1" }

/-- Aggregate whose last-used pointers both point into group `g2`. -/
def cexGroupsB : StorageGroups :=
  { groups := [mkGroup "g2" [mkPreset "p2"]],
    lastUsedGroupId := some "g2", lastUsedPresetId := some "p2" }

/-! ## Helper lemmas -/

theorem flatMap_byteHexUpper_length (bs : List Nat) :
    (bs.flatMap byteHexUpper).length = 2 * bs.length := by
  induction bs with
  | nil => rfl
  | cons b tl ih => simp [byteHexUpper, ih]; omega

theorem md5_length (bs : List Nat) : (md5 bs).length = 16 := by
  unfold md5
  rcases hq : (blocks16 (leWords (md5Pad bs))).foldl md5Block md5Init with ⟨a, b, c, d⟩
  simp [hq, leBytes4]

theorem hexUpperOfBytes_length (bs : List Nat) :
    (hexUpperOfBytes bs).length = 2 * bs.length := by
  show (bs.flatMap byteHexUpper).length = 2 * bs.length
  exact flatMap_byteHexUpper_length bs

theorem getD_hexDigits_mem (n : Nat) : hexDigits.getD n '0' ∈ hexDigits := by
  by_cases h : n < hexDigits.length
  · rw [List.getD_eq_getElem?_getD, List.getElem?_eq_getElem h]
    exact List.getElem_mem h
  · rw [List.getD_eq_getElem?_getD, List.getElem?_eq_none (Nat.le_of_not_lt h)]
    decide

theorem mem_hexDigits_of_mem_hexUpperOfBytes (bs : List Nat) :
    ∀ c ∈ (hexUpperOfBytes bs).data, c ∈ hexDigits := by
  intro c hc
  have : c ∈ bs.flatMap byteHexUpper := hc
  rw [List.mem_flatMap] at this
  obtain ⟨b, _, hcb⟩ := this
  simp only [byteHexUpper, List.mem_cons, List.mem_singleton] at hcb
  rcases hcb with h | h | h
  · exact h ▸ getD_hexDigits_mem _
  · exact h ▸ getD_hexDigits_mem _
  · exact absurd h (by simp)

/-! ## Claim C7 — importAll -/

/-- C7: on an object payload carrying both aggregates, `importAll` writes
both to the durable store and returns them; on any other payload it returns
`null` and leaves the store untouched. -/
theorem importAll_replaces_or_rejects (d : ImportData) (st : LocalStore) :
    (∀ g h, d = ImportData.jsObject (some g) (some h) →
      importAll d st = (some (g, h), { groupsSlot := some g, historySlot := some h })) ∧
    (d.wellShaped = false → importAll d st = (none, st)) := by
  constructor
  · rintro g h rfl
    rfl
  · intro hshape
    cases d with
    | notObject => rfl
    | jsObject og oh =>
        cases og <;> cases oh <;>
          first
          | rfl
          | simp [ImportData.wellShaped] at hshape

/-- Witness for C7 at concrete payloads: a well-shaped import replaces a
non-empty store, and the empty object leaves it unchanged. -/
theorem importAll_replaces_or_rejects_witness :
    importAll (ImportData.jsObject (some cexGroupsA) (some clearHistory))
        { groupsSlot := some cexGroupsB, historySlot := none } =
      (some (cexGroupsA, clearHistory),
        { groupsSlot := some cexGroupsA, historySlot := some clearHistory }) ∧
    importAll (ImportData.jsObject none none)
        { groupsSlot := some cexGroupsB, historySlot := none } =
      (none, { groupsSlot := some cexGroupsB, historySlot := none }) :=
  ⟨(importAll_replaces_or_rejects _ _).1 cexGroupsA clearHistory rfl,
   (importAll_replaces_or_rejects _ _).2 rfl⟩

/-! ## Claim C3 — pushHistory -/

/-- C3 counterexample: with `limit = 0` (reachable, e.g. through import) a
history holding exactly `limit` items does not, after a push, consist of the
new entry followed by the old items minus the oldest: the new entry itself
is dropped. -/
theorem pushHistory_limit_zero_cex :
    ({ items := [], limit := some 0 } : StorageHistory).items.length =
      ({ items := [], limit := some 0 } : StorageHistory).limit.getD HISTORY_LIMIT ∧
    (pushHistory sampleEntry { items := [], limit := some 0 }).items ≠
      sampleEntry :: ({ items := [], limit := some 0 } : StorageHistory).items.dropLast := by
  exact ⟨rfl, by simp [pushHistory]⟩

/-- C3 amended: `pushHistory` returns the new entry consed onto the old
items, truncated to the resolved limit, so the bound `items.length ≤ limit`
always holds; when the limit is at least 1, pushing into a history that
already holds exactly `limit` items evicts exactly the single oldest (last)
entry; when the limit is 0 the pushed entry itself is dropped. -/
theorem pushHistory_bounded (e : HistoryItem) (h : StorageHistory) :
    (pushHistory e h).items = (e :: h.items).take (h.limit.getD HISTORY_LIMIT) ∧
    (pushHistory e h).items.length ≤ h.limit.getD HISTORY_LIMIT ∧
    (pushHistory e h).limit = some (h.limit.getD HISTORY_LIMIT) ∧
    (h.items.length = h.limit.getD HISTORY_LIMIT → 1 ≤ h.limit.getD HISTORY_LIMIT →
      (pushHistory e h).items = e :: h.items.dropLast) := by
  refine ⟨rfl, ?_, rfl, ?_⟩
  · simp [pushHistory]
  · intro hlen hpos
    obtain ⟨k, hk⟩ : ∃ k, h.limit.getD HISTORY_LIMIT = k + 1 :=
      ⟨h.limit.getD HISTORY_LIMIT - 1, by omega⟩
    rw [hk] at hlen
    show (e :: h.items).take (h.limit.getD HISTORY_LIMIT) = e :: h.items.dropLast
    rw [hk, List.take_succ_cons, List.dropLast_eq_take,
      show k = h.items.length - 1 by omega]

/-- Witness for C3 at a concrete history: limit 2, two stored items, a push
keeps the bound and evicts exactly the oldest. -/
theorem pushHistory_bounded_witness :
    (pushHistory sampleEntry
        { items := [sampleEntry, sampleEntry], limit := some 2 }).items.length ≤ 2 ∧
    (pushHistory sampleEntry
        { items := [sampleEntry, sampleEntry], limit := some 2 }).items =
      [sampleEntry, sampleEntry] :=
  ⟨(pushHistory_bounded sampleEntry _).2.1,
   by
    have h :=
      (pushHistory_bounded sampleEntry
          { items := [sampleEntry, sampleEntry], limit := some 2 }).2.2.2 rfl (by decide)
    simpa using h⟩

/-! ## Claim C8 — md5UpperHex on empty input -/

/-- C8 counterexample: `md5UpperHex` does special-case the empty string,
returning `""` instead of the MD5 digest of the empty byte sequence. -/
theorem md5UpperHex_empty_cex :
    md5UpperHex "" = "" ∧
    md5UpperHex "" ≠ hexUpperOfBytes (md5 (utf8Encode "")) ∧
    hexUpperOfBytes (md5 (utf8Encode "")) = "D41D8CD98F00B204E9800998ECF8427E" := by
  refine ⟨rfl, ?_, by decide⟩
  decide

/-- C8 amended: `md5UpperHex` maps the empty string to `""`; on every
non-empty input it applies no special casing and returns the uppercase-hex
MD5 digest (32 characters, all uppercase hex digits) of the input's UTF-8
bytes. -/
theorem md5UpperHex_nonempty (s : String) (h : s ≠ "") :
    md5UpperHex s = hexUpperOfBytes (md5 (utf8Encode s)) ∧
    (md5UpperHex s).length = 32 ∧
    ∀ c ∈ (md5UpperHex s).data, c ∈ hexDigits := by
  have heq : md5UpperHex s = hexUpperOfBytes (md5 (utf8Encode s)) := by
    simp [md5UpperHex, h]
  refine ⟨heq, ?_, ?_⟩
  · rw [heq, hexUpperOfBytes_length, md5_length]
  · rw [heq]
    exact mem_hexDigits_of_mem_hexUpperOfBytes _

/-- Witness for C8 at `"abc"`, whose digest is the RFC 1321 test value. -/
theorem md5UpperHex_nonempty_witness :
    (md5UpperHex "abc").length = 32 ∧
    md5UpperHex "abc" = "900150983CD24FB0D6963F7D28E17F72" :=
  ⟨(md5UpperHex_nonempty "abc" (by decide)).2.1, by decide⟩

/-! ## Claims C1 and C10 — request executor -/

theorem digitChar_mod10_isDigit (n : Nat) : (Nat.digitChar (n % 10)).isDigit = true := by
  have hlt : n % 10 < 10 := Nat.mod_lt _ (by omega)
  have hall : ∀ m, m < 10 → (Nat.digitChar m).isDigit = true := by decide
  exact hall _ hlt

theorem getTimestamp_length (d : DateTime) : (getTimestamp d).length = 14 := rfl

theorem getTimestamp_digits (d : DateTime) :
    (getTimestamp d).data.all Char.isDigit = true := by
  show (pad4 d.year ++ pad2 d.month ++ pad2 d.day ++
      pad2 d.hour ++ pad2 d.minute ++ pad2 d.second).all Char.isDigit = true
  simp [pad4, pad2, digitChar_mod10_isDigit]

/-- C1: whenever the concatenation `timestamp ++ dataB64 ++ password` of the
effective values is non-empty, the `sign` the executor sends is exactly the
MD5 digest of the UTF-8 bytes of that concatenation, rendered as 32
uppercase hexadecimal characters. -/
theorem executeMultipartRequest_sign (options : RequestOptions) (now : DateTime)
    (h : effTimestamp options now ++ effDataB64 options.request ++
      options.request.password ≠ "") :
    (executeMultipartRequest options now).sign =
      hexUpperOfBytes (md5 (utf8Encode
        ((executeMultipartRequest options now).timestamp ++
          (executeMultipartRequest options now).dataB64 ++
          options.request.password))) ∧
    (executeMultipartRequest options now).sign.length = 32 ∧
    ∀ c ∈ (executeMultipartRequest options now).sign.data, c ∈ hexDigits := by
  have hsign : (executeMultipartRequest options now).sign =
      md5UpperHex (effTimestamp options now ++ effDataB64 options.request ++
        options.request.password) := by
    simp [executeMultipartRequest]
  have hval : md5UpperHex (effTimestamp options now ++ effDataB64 options.request ++
      options.request.password) =
      hexUpperOfBytes (md5 (utf8Encode (effTimestamp options now ++
        effDataB64 options.request ++ options.request.password))) := by
    simp [md5UpperHex, h]
  refine ⟨hsign.trans hval, ?_, ?_⟩
  · rw [hsign, hval, hexUpperOfBytes_length, md5_length]
  · rw [hsign, hval]
    exact mem_hexDigits_of_mem_hexUpperOfBytes _

/-- Witness for C1: with timestamp `20240115093000`, payload `eyJhIjoxfQ==`
and password `secret` the executor signs with the uppercase MD5 of the
literal concatenation, matching the spec's end-to-end test vector. -/
theorem executeMultipartRequest_sign_witness :
    effTimestamp sampleOptions sampleNow ++ effDataB64 sampleOptions.request ++
        sampleOptions.request.password ≠ "" ∧
    (executeMultipartRequest sampleOptions sampleNow).sign.length = 32 ∧
    (executeMultipartRequest sampleOptions sampleNow).sign =
      "73C98F0652469629488F74D8503171F7" :=
  ⟨by decide, (executeMultipartRequest_sign sampleOptions sampleNow (by decide)).2.1,
   by decide⟩

/-- C10: the executor resolves the effective timestamp as `forceTime`, else
the request's stored timestamp, else a freshly generated `yyyyMMddHHmmss`
value (14 digits for in-range dates); resolves the payload as the request's
`dataB64` when non-empty and the empty string otherwise (never re-deriving
it from `dataRaw`); and appends the multipart fields in exactly the order
`appkey`, `timestamp`, `data`, `sign`, `ver`, with `ver` defaulting to "1"
when falsy. -/
theorem executeMultipartRequest_assembly (options : RequestOptions) (now : DateTime) :
    (∀ t, options.forceTime = some t →
      (executeMultipartRequest options now).timestamp = t) ∧
    (options.forceTime = none → ∀ t, options.request.timestamp = some t →
      (executeMultipartRequest options now).timestamp = t) ∧
    (options.forceTime = none → options.request.timestamp = none →
      (executeMultipartRequest options now).timestamp = getTimestamp now ∧
      (now.Valid → (executeMultipartRequest options now).timestamp.length = 14 ∧
        (executeMultipartRequest options now).timestamp.data.all Char.isDigit = true)) ∧
    (∀ s, options.request.dataB64 = some s → 0 < s.length →
      (executeMultipartRequest options now).dataB64 = s) ∧
    (options.request.dataB64 = some "" ∨ options.request.dataB64 = none →
      (executeMultipartRequest options now).dataB64 = "") ∧
    (executeMultipartRequest options now).form =
      [("appkey", options.request.appkey),
       ("timestamp", (executeMultipartRequest options now).timestamp),
       ("data", (executeMultipartRequest options now).dataB64),
       ("sign", (executeMultipartRequest options now).sign),
       ("ver", if options.request.ver = "" then "1" else options.request.ver)] := by
  refine ⟨?_, ?_, ?_, ?_, ?_, rfl⟩
  · intro t ht
    simp [executeMultipartRequest, effTimestamp, ht]
  · intro hf t ht
    simp [executeMultipartRequest, effTimestamp, hf, ht]
  · intro hf ht
    refine ⟨by simp [executeMultipartRequest, effTimestamp, hf, ht], fun _ => ⟨?_, ?_⟩⟩
    · show (effTimestamp options now).length = 14
      simp only [effTimestamp, hf, ht]
      exact getTimestamp_length now
    · show (effTimestamp options now).data.all Char.isDigit = true
      simp only [effTimestamp, hf, ht]
      exact getTimestamp_digits now
  · intro s hs hlen
    simp [executeMultipartRequest, effDataB64, hs, hlen]
  · intro hcase
    rcases hcase with hs | hs <;> simp [executeMultipartRequest, effDataB64, hs]

/-- Witness for C10: concrete resolutions — a stored timestamp is used when
no forced time is given, the stored non-empty payload is used, and the form
fields come out in the fixed order. -/
theorem executeMultipartRequest_assembly_witness :
    (executeMultipartRequest sampleOptions sampleNow).timestamp = "20240115093000" ∧
    (executeMultipartRequest sampleOptions sampleNow).dataB64 = "eyJhIjoxfQ==" ∧
    (executeMultipartRequest sampleOptions sampleNow).form =
      [("appkey", "k"), ("timestamp", "20240115093000"), ("data", "eyJhIjoxfQ=="),
       ("sign", (executeMultipartRequest sampleOptions sampleNow).sign), ("ver", "1")] := by
  have h := executeMultipartRequest_assembly sampleOptions sampleNow
  refine ⟨h.2.1 rfl "20240115093000" rfl, h.2.2.2.1 "eyJhIjoxfQ==" rfl (by decide), ?_⟩
  have hform := h.2.2.2.2.2
  rw [hform, h.2.1 rfl "20240115093000" rfl, h.2.2.2.1 "eyJhIjoxfQ==" rfl (by decide)]
  rfl

/-! ## Claim C4 — deleteGroup -/

/-- C4 counterexample: in `cexGroupsA` the preset `p1` lives only inside
group `g1`; deleting `g1` removes it, yet `lastUsedPresetId` is NOT cleared
— the retention check scans the pre-deletion group list. -/
theorem deleteGroup_pre_scan_cex :
    cexGroupsA.groups.any (fun g => g.id == "g1" &&
      g.presets.any (fun p => p.id == "p1")) = true ∧
    (deleteGroup "g1" cexGroupsA).groups.any
      (fun g => g.presets.any (fun p => p.id == "p1")) = false ∧
    cexGroupsA.lastUsedPresetId = some "p1" ∧
    (deleteGroup "g1" cexGroupsA).lastUsedPresetId = some "p1" := by
  decide

/-- C4 amended: `deleteGroup` removes the group (with all its presets) from
the list and clears `lastUsedGroupId` iff it equalled the deleted id; but
it clears `lastUsedPresetId` iff that pointer was empty or matched no preset
in the PRE-deletion groups list — a pointer to a preset inside the deleted
group is retained. -/
theorem deleteGroup_spec (gid : String) (ex : StorageGroups)
    (hpresent : ex.groups.any (fun g => g.id == gid) = true) :
    (deleteGroup gid ex).groups = ex.groups.filter (fun g => g.id != gid) ∧
    (∀ g ∈ (deleteGroup gid ex).groups, g.id ≠ gid) ∧
    ((deleteGroup gid ex).lastUsedGroupId =
      if ex.lastUsedGroupId = some gid then none else ex.lastUsedGroupId) ∧
    (∀ pid, ex.lastUsedPresetId = some pid →
      (deleteGroup gid ex).lastUsedPresetId =
        if (pid != "" &&
            ex.groups.any (fun g => g.presets.any (fun p => p.id == pid))) = true then
          some pid
        else none) := by
  refine ⟨rfl, ?_, ?_, ?_⟩
  · intro g hg
    have := List.of_mem_filter hg
    simpa using this
  · show (match ex.lastUsedGroupId with
      | some gid0 => if gid0 == gid then none else some gid0
      | none => none) =
        if ex.lastUsedGroupId = some gid then none else ex.lastUsedGroupId
    cases h : ex.lastUsedGroupId with
    | none => simp
    | some gid0 =>
        by_cases heq : gid0 = gid <;> simp [heq]
  · intro pid hp
    show (match ex.lastUsedPresetId with
      | some pid0 =>
          if pid0 != "" &&
              ex.groups.any (fun g => g.presets.any (fun p => p.id == pid0)) then
            some pid0
          else none
      | none => none) = _
    rw [hp]

/-- Witness for C4: deleting the only group clears `lastUsedGroupId` and
empties the list. -/
theorem deleteGroup_spec_witness :
    (deleteGroup "g1" cexGroupsA).groups = [] ∧
    (deleteGroup "g1" cexGroupsA).lastUsedGroupId = none := by
  have h := deleteGroup_spec "g1" cexGroupsA (by decide)
  refine ⟨?_, ?_⟩
  · rw [h.1]
    decide
  · rw [h.2.2.1]
    decide

/-! ## Claim C5 — referential integrity across store operations -/

theorem refValidG_intro (s : StorageGroups)
    (h : ∀ gid, s.lastUsedGroupId = some gid →
      s.groups.any (fun g => g.id == gid) = true) :
    refValidG s = true := by
  rw [refValidG]
  cases hg : s.lastUsedGroupId with
  | none => rfl
  | some gid => exact h gid hg

theorem refValidG_elim (s : StorageGroups) (h : refValidG s = true)
    (gid : String) (hg : s.lastUsedGroupId = some gid) :
    s.groups.any (fun g => g.id == gid) = true := by
  rw [refValidG, hg] at h
  exact h

theorem refValidP_intro (s : StorageGroups)
    (h : ∀ pid, s.lastUsedPresetId = some pid →
      s.groups.any (fun g => g.presets.any (fun p => p.id == pid)) = true) :
    refValidP s = true := by
  rw [refValidP]
  cases hg : s.lastUsedPresetId with
  | none => rfl
  | some pid => exact h pid hg

theorem refValidP_elim (s : StorageGroups) (h : refValidP s = true)
    (pid : String) (hg : s.lastUsedPresetId = some pid) :
    s.groups.any (fun g => g.presets.any (fun p => p.id == pid)) = true := by
  rw [refValidP, hg] at h
  exact h

theorem any_id_map (l : List GroupItem) (f : GroupItem → GroupItem)
    (hid : ∀ g, (f g).id = g.id) (gid : String) :
    (l.map f).any (fun g => g.id == gid) = l.any (fun g => g.id == gid) := by
  induction l with
  | nil => rfl
  | cons a tl ih => simp [hid, ih]

theorem any_presets_map_mono (groups : List GroupItem) (f : GroupItem → GroupItem)
    (pid : String)
    (hp : ∀ g, g.presets.any (fun p => p.id == pid) = true →
      (f g).presets.any (fun p => p.id == pid) = true)
    (h : groups.any (fun g => g.presets.any (fun p => p.id == pid)) = true) :
    (groups.map f).any (fun g => g.presets.any (fun p => p.id == pid)) = true := by
  rw [List.any_eq_true] at h ⊢
  obtain ⟨g, hg, hgp⟩ := h
  exact ⟨f g, List.mem_map_of_mem f hg, hp g hgp⟩

/-- C5 counterexample: `cexGroupsB` satisfies the referential-integrity
invariant, and `deleteGroup` on the group holding the last-used preset
breaks it. -/
theorem storeOps_invariant_cex :
    lastUsedRefsValid cexGroupsB = true ∧
    lastUsedRefsValid (deleteGroup "g2" cexGroupsB) = false := by
  decide

/-- C5 amended: `createGroup` establishes the referential-integrity
invariant unconditionally; `renameGroup`, `deletePreset` and `clonePreset`
preserve it; `upsertPreset` preserves it provided the target group id
exists in the aggregate (on an unknown id it sets dangling pointers); and
`deleteGroup` preserves only the `lastUsedGroupId` half — its
`lastUsedPresetId` may be left dangling (see the counterexample). -/
theorem storeOps_preserve_refs (ex : StorageGroups) :
    (∀ name newId now, lastUsedRefsValid (createGroup name newId now ex) = true) ∧
    (lastUsedRefsValid ex = true →
      ∀ gid name now, lastUsedRefsValid (renameGroup gid name now ex) = true) ∧
    (∀ gid p now, ex.groups.any (fun g => g.id == gid) = true →
      lastUsedRefsValid (upsertPreset gid p now ex) = true) ∧
    (lastUsedRefsValid ex = true →
      ∀ gid pid now, lastUsedRefsValid (deletePreset gid pid now ex) = true) ∧
    (lastUsedRefsValid ex = true →
      ∀ gid p cloneId now, lastUsedRefsValid (clonePreset gid p cloneId now ex) = true) ∧
    (lastUsedRefsValid ex = true → ∀ gid, refValidG (deleteGroup gid ex) = true) := by
  refine ⟨?_, ?_, ?_, ?_, ?_, ?_⟩
  · -- createGroup
    intro name newId now
    simp [createGroup, lastUsedRefsValid, refValidG, refValidP, List.any_append]
  · -- renameGroup
    intro h gid name now
    rw [lastUsedRefsValid, Bool.and_eq_true] at h ⊢
    obtain ⟨hG, hP⟩ := h
    constructor
    · refine refValidG_intro _ ?_
      intro gid0 hg0
      have hg0x : ex.lastUsedGroupId = some gid0 := by
        simpa [renameGroup] using hg0
      have hx := refValidG_elim ex hG gid0 hg0x
      show ((renameGroup gid name now ex).groups).any (fun g => g.id == gid0) = true
      simp only [renameGroup]
      rw [any_id_map]
      · exact hx
      · intro g
        by_cases hgi : g.id == gid <;> simp [hgi]
    · refine refValidP_intro _ ?_
      intro pid hp0
      have hp0x : ex.lastUsedPresetId = some pid := by
        simpa [renameGroup] using hp0
      have hx := refValidP_elim ex hP pid hp0x
      show ((renameGroup gid name now ex).groups).any
        (fun g => g.presets.any (fun p => p.id == pid)) = true
      simp only [renameGroup]
      refine any_presets_map_mono _ _ _ ?_ hx
      intro g hgp
      by_cases hgi : g.id == gid <;> simp [hgi, hgp]
  · -- upsertPreset
    intro gid p now hg
    rw [lastUsedRefsValid, Bool.and_eq_true]
    constructor
    · refine refValidG_intro _ ?_
      intro gid0 hg0
      have hgid0 : gid0 = gid := by
        have : some gid = some gid0 := by simpa [upsertPreset] using hg0
        exact (Option.some_inj.1 this).symm
      subst hgid0
      show ((upsertPreset gid0 p now ex).groups).any (fun g => g.id == gid0) = true
      simp only [upsertPreset]
      rw [any_id_map]
      · exact hg
      · intro g
        rw [upsertPresetGroup]
        by_cases hgi : g.id = gid0 <;> simp [hgi]
    · refine refValidP_intro _ ?_
      intro pid hp0
      have hpid : pid = p.id := by
        have : some p.id = some pid := by simpa [upsertPreset] using hp0
        exact (Option.some_inj.1 this).symm
      subst hpid
      show ((upsertPreset gid p now ex).groups).any
        (fun g => g.presets.any (fun q => q.id == p.id)) = true
      simp only [upsertPreset]
      rw [List.any_eq_true] at hg ⊢
      obtain ⟨g0, hg0, hg0id⟩ := hg
      refine ⟨upsertPresetGroup gid p now g0, List.mem_map_of_mem _ hg0, ?_⟩
      rw [upsertPresetGroup]
      have hgi : ¬ g0.id ≠ gid := by simpa using hg0id
      rw [if_neg hgi]
      by_cases hfound : g0.presets.any (fun q => q.id == p.id)
      · simp only [hfound, if_pos]
        rw [List.any_eq_true] at hfound ⊢
        obtain ⟨q, hq, hqid⟩ := hfound
        refine ⟨p, ?_, by simp⟩
        exact List.mem_map.2 ⟨q, hq, by simp [hqid]⟩
      · simp only [Bool.not_eq_true] at hfound
        simp [hfound, List.any_append]
  · -- deletePreset
    intro h gid pid now
    rw [lastUsedRefsValid, Bool.and_eq_true] at h ⊢
    obtain ⟨hG, hP⟩ := h
    constructor
    · refine refValidG_intro _ ?_
      intro gid0 hg0
      have hg0x : ex.lastUsedGroupId = some gid0 := by
        simpa [deletePreset] using hg0
      have hx := refValidG_elim ex hG gid0 hg0x
      show ((deletePreset gid pid now ex).groups).any (fun g => g.id == gid0) = true
      simp only [deletePreset]
      rw [any_id_map]
      · exact hx
      · intro g
        by_cases hgi : g.id == gid <;> simp [hgi]
    · refine refValidP_intro _ ?_
      intro pid1 hp1
      have hcase : ex.lastUsedPresetId = some pid1 ∧ (pid1 == pid) = false := by
        have : (match ex.lastUsedPresetId with
          | some pid0 => if pid0 == pid then none else some pid0
          | none => none) = some pid1 := by simpa [deletePreset] using hp1
        cases hg : ex.lastUsedPresetId with
        | none => rw [hg] at this; simp at this
        | some pid0 =>
            rw [hg] at this
            by_cases heq : pid0 == pid
            · simp [heq] at this
            · simp [heq] at this
              subst this
              exact ⟨rfl, by simpa using heq⟩
      obtain ⟨hp1x, hne⟩ := hcase
      have hx := refValidP_elim ex hP pid1 hp1x
      show ((deletePreset gid pid now ex).groups).any
        (fun g => g.presets.any (fun p => p.id == pid1)) = true
      simp only [deletePreset]
      refine any_presets_map_mono _ _ _ ?_ hx
      intro g hgp
      by_cases hgi : g.id == gid
      · simp only [hgi, if_pos]
        rw [List.any_eq_true] at hgp ⊢
        obtain ⟨q, hq, hqid⟩ := hgp
        refine ⟨q, ?_, hqid⟩
        refine List.mem_filter.2 ⟨hq, ?_⟩
        have hqpid : q.id = pid1 := by simpa using hqid
        have hne2 : pid1 ≠ pid := by simpa using hne
        simp [hqpid, hne2]
      · simp [hgi, hgp]
  · -- clonePreset
    intro h gid p cloneId now
    rw [lastUsedRefsValid, Bool.and_eq_true] at h ⊢
    obtain ⟨hG, hP⟩ := h
    constructor
    · refine refValidG_intro _ ?_
      intro gid0 hg0
      have hg0x : ex.lastUsedGroupId = some gid0 := by
        simpa [clonePreset] using hg0
      have hx := refValidG_elim ex hG gid0 hg0x
      show ((clonePreset gid p cloneId now ex).groups).any (fun g => g.id == gid0) = true
      simp only [clonePreset]
      rw [any_id_map]
      · exact hx
      · intro g
        by_cases hgi : g.id == gid <;> simp [hgi]
    · refine refValidP_intro _ ?_
      intro pid hp0
      have hp0x : ex.lastUsedPresetId = some pid := by
        simpa [clonePreset] using hp0
      have hx := refValidP_elim ex hP pid hp0x
      show ((clonePreset gid p cloneId now ex).groups).any
        (fun g => g.presets.any (fun q => q.id == pid)) = true
      simp only [clonePreset]
      refine any_presets_map_mono _ _ _ ?_ hx
      intro g hgp
      by_cases hgi : g.id == gid <;> simp [hgi, hgp, List.any_append]
  · -- deleteGroup, group-pointer half
    intro h gid
    rw [lastUsedRefsValid, Bool.and_eq_true] at h
    obtain ⟨hG, _⟩ := h
    refine refValidG_intro _ ?_
    intro gid1 hg1
    have hcase : ex.lastUsedGroupId = some gid1 ∧ (gid1 == gid) = false := by
      have : (match ex.lastUsedGroupId with
        | some gid0 => if gid0 == gid then none else some gid0
        | none => none) = some gid1 := by simpa [deleteGroup] using hg1
      cases hg : ex.lastUsedGroupId with
      | none => rw [hg] at this; simp at this
      | some gid0 =>
          rw [hg] at this
          by_cases heq : gid0 == gid
          · simp [heq] at this
          · simp [heq] at this
            subst this
            exact ⟨rfl, by simpa using heq⟩
    obtain ⟨hg1x, hne⟩ := hcase
    have hx := refValidG_elim ex hG gid1 hg1x
    show ((deleteGroup gid ex).groups).any (fun g => g.id == gid1) = true
    simp only [deleteGroup]
    rw [List.any_eq_true] at hx ⊢
    obtain ⟨g, hgmem, hgid⟩ := hx
    refine ⟨g, List.mem_filter.2 ⟨hgmem, ?_⟩, hgid⟩
    have h1 : g.id = gid1 := by simpa using hgid
    have h2 : gid1 ≠ gid := by simpa using hne
    simp [h1, h2]

/-- Witness for C5: a concrete upsert into an existing group and a concrete
rename both keep the invariant. -/
theorem storeOps_preserve_refs_witness :
    lastUsedRefsValid (upsertPreset "g1" (mkPreset "p9") "t1" cexGroupsA) = true ∧
    lastUsedRefsValid (renameGroup "g1" "renamed" "t1" cexGroupsA) = true :=
  ⟨(storeOps_preserve_refs cexGroupsA).2.2.1 "g1" (mkPreset "p9") "t1" (by decide),
   (storeOps_preserve_refs cexGroupsA).2.1 (by decide) "g1" "renamed" "t1"⟩

/-! ## Claim C6 — upsertPreset -/

theorem map_replace_noop (l : List PresetItem) (pr : PresetItem)
    (h : ∀ q ∈ l, q.id ≠ pr.id) :
    l.map (fun q => if q.id == pr.id then pr else q) = l := by
  induction l with
  | nil => rfl
  | cons a tl ih =>
      have ha : a.id ≠ pr.id := h a (List.mem_cons_self a tl)
      have htl := ih (fun q hq => h q (List.mem_cons_of_mem a hq))
      simp only [List.map_cons]
      rw [if_neg (by simpa using ha), htl]

theorem map_replace_eq_set (l : List PresetItem) (pr : PresetItem)
    (hnd : (l.map PresetItem.id).Nodup) (j : Nat) (hj : j < l.length)
    (hid : (l.get ⟨j, hj⟩).id = pr.id) :
    l.map (fun q => if q.id == pr.id then pr else q) = l.set j pr := by
  induction l generalizing j with
  | nil => exact absurd hj (by simp)
  | cons a tl ih =>
      obtain ⟨hna, hndtl⟩ : a.id ∉ tl.map PresetItem.id ∧ (tl.map PresetItem.id).Nodup := by
        simpa using hnd
      cases j with
      | zero =>
          have ha : a.id = pr.id := hid
          have htl : tl.map (fun q => if q.id == pr.id then pr else q) = tl := by
            refine map_replace_noop tl pr ?_
            intro q hq hqe
            exact hna (by
              rw [ha, ← hqe]
              exact List.mem_map_of_mem PresetItem.id hq)
          simp only [List.map_cons, List.set_cons_zero]
          rw [if_pos (by simpa using ha), htl]
      | succ j' =>
          have hj' : j' < tl.length := by simpa using hj
          have hid' : (tl.get ⟨j', hj'⟩).id = pr.id := hid
          have hmem : pr.id ∈ tl.map PresetItem.id := by
            rw [← hid']
            exact List.mem_map_of_mem PresetItem.id (tl.get_mem _ _)
          have ha : a.id ≠ pr.id := fun he => hna (he ▸ hmem)
          have htl := ih hndtl j' hj' hid'
          simp only [List.map_cons, List.set_cons_succ]
          rw [if_neg (by simpa using ha), htl]

/-- C6: `upsertPreset` sets both last-used pointers to the written entity
and rewrites only the group whose id matches: there, a preset with a
matching id is replaced at its existing position (all other presets and
their order untouched — stated via `List.set` under id-uniqueness), and a
new id is appended at the end; groups with other ids are unchanged. -/
theorem upsertPreset_replace_or_append (gid : String) (p : PresetItem) (now : String)
    (ex : StorageGroups) :
    (upsertPreset gid p now ex).lastUsedGroupId = some gid ∧
    (upsertPreset gid p now ex).lastUsedPresetId = some p.id ∧
    (upsertPreset gid p now ex).groups.length = ex.groups.length ∧
    ∀ i (hi : i < ex.groups.length) (hi2 : i < (upsertPreset gid p now ex).groups.length),
      ((ex.groups.get ⟨i, hi⟩).id ≠ gid →
        (upsertPreset gid p now ex).groups.get ⟨i, hi2⟩ = ex.groups.get ⟨i, hi⟩) ∧
      ((ex.groups.get ⟨i, hi⟩).id = gid →
        ((∀ q ∈ (ex.groups.get ⟨i, hi⟩).presets, q.id ≠ p.id) →
          ((upsertPreset gid p now ex).groups.get ⟨i, hi2⟩).presets =
            (ex.groups.get ⟨i, hi⟩).presets ++ [p]) ∧
        (((ex.groups.get ⟨i, hi⟩).presets.map PresetItem.id).Nodup →
          ∀ j (hj : j < (ex.groups.get ⟨i, hi⟩).presets.length),
            ((ex.groups.get ⟨i, hi⟩).presets.get ⟨j, hj⟩).id = p.id →
            ((upsertPreset gid p now ex).groups.get ⟨i, hi2⟩).presets =
              (ex.groups.get ⟨i, hi⟩).presets.set j p)) := by
  refine ⟨rfl, rfl, by simp [upsertPreset], ?_⟩
  intro i hi hi2
  have hget : (upsertPreset gid p now ex).groups.get ⟨i, hi2⟩ =
      upsertPresetGroup gid p now (ex.groups.get ⟨i, hi⟩) := by
    simp [upsertPreset]
  refine ⟨?_, ?_⟩
  · intro hne
    rw [hget, upsertPresetGroup, if_pos hne]
  · intro heq
    have hcond : ¬ (ex.groups.get ⟨i, hi⟩).id ≠ gid := fun hk => hk heq
    constructor
    · intro hnone
      have hany : (ex.groups.get ⟨i, hi⟩).presets.any (fun q => q.id == p.id) = false := by
        rw [List.any_eq_false]
        intro q hq
        simpa using hnone q hq
      rw [hget, upsertPresetGroup, if_neg hcond, hany]
      simp
    · intro hnd j hj hjid
      have hany : (ex.groups.get ⟨i, hi⟩).presets.any (fun q => q.id == p.id) = true := by
        rw [List.any_eq_true]
        exact ⟨_, (ex.groups.get ⟨i, hi⟩).presets.get_mem _ _, by simpa using hjid⟩
      rw [hget, upsertPresetGroup, if_neg hcond, hany]
      simpa using map_replace_eq_set _ p hnd j hj hjid

/-- Witness for C6: replacing the only preset of the only group in place. -/
theorem upsertPreset_replace_or_append_witness :
    ((upsertPreset "g1" { mkPreset "p1" with name := "replaced" } "t1"
        cexGroupsA).groups.get ⟨0, by decide⟩).presets =
      [{ mkPreset "p1" with name := "replaced" }] := by
  have h := (upsertPreset_replace_or_append "g1"
    ({ mkPreset "p1" with name := "replaced" }) "t1" cexGroupsA).2.2.2 0
    (by decide) (by decide)
  have h2 := (h.2 (by decide)).2 (by decide) 0 (by decide) (by decide)
  simpa using h2

/-! ## Claim C2 — Base64 and UTF-8 round trip (Base64 side) -/

theorem b64Index_b64Char : ∀ n, n < 64 → b64Index (b64Char n) = some n := by decide

theorem b64Char_not_ws : ∀ n, n < 64 → isAsciiWs (b64Char n) = false := by decide

theorem b64Char_ne_pad : ∀ n, n < 64 → b64Char n ≠ '=' := by decide

theorem b64Body_mem_spec : ∀ (bs : List Nat), (∀ b ∈ bs, b < 256) →
    ∀ c ∈ b64Body bs, ∃ n, n < 64 ∧ c = b64Char n
  | [], _ => by simp [b64Body]
  | [b0], h => by
      have hb0 : b0 < 256 := h b0 (by simp)
      intro c hc
      rcases (by simpa [b64Body] using hc : c = b64Char (b0 / 4) ∨ c = b64Char (b0 % 4 * 16))
        with rfl | rfl
      · exact ⟨b0 / 4, by omega, rfl⟩
      · exact ⟨b0 % 4 * 16, by omega, rfl⟩
  | [b0, b1], h => by
      have hb0 : b0 < 256 := h b0 (by simp)
      have hb1 : b1 < 256 := h b1 (by simp)
      intro c hc
      rcases (by simpa [b64Body] using hc :
          c = b64Char (b0 / 4) ∨ c = b64Char (b0 % 4 * 16 + b1 / 16) ∨
            c = b64Char (b1 % 16 * 4)) with rfl | rfl | rfl
      · exact ⟨b0 / 4, by omega, rfl⟩
      · exact ⟨b0 % 4 * 16 + b1 / 16, by omega, rfl⟩
      · exact ⟨b1 % 16 * 4, by omega, rfl⟩
  | b0 :: b1 :: b2 :: rest, h => by
      have hb0 : b0 < 256 := h b0 (by simp)
      have hb1 : b1 < 256 := h b1 (by simp)
      have hb2 : b2 < 256 := h b2 (by simp)
      have ih := b64Body_mem_spec rest (fun b hb => h b (by simp [hb]))
      intro c hc
      rcases (by simpa [b64Body] using hc :
          c = b64Char (b0 / 4) ∨ c = b64Char (b0 % 4 * 16 + b1 / 16) ∨
            c = b64Char (b1 % 16 * 4 + b2 / 64) ∨ c = b64Char (b2 % 64) ∨
            c ∈ b64Body rest) with rfl | rfl | rfl | rfl | hmem
      · exact ⟨b0 / 4, by omega, rfl⟩
      · exact ⟨b0 % 4 * 16 + b1 / 16, by omega, rfl⟩
      · exact ⟨b1 % 16 * 4 + b2 / 64, by omega, rfl⟩
      · exact ⟨b2 % 64, by omega, rfl⟩
      · exact ih c hmem

theorem b64Pad_shape : ∀ bs : List Nat,
    b64Pad bs = [] ∨ b64Pad bs = ['='] ∨ b64Pad bs = ['=', '=']
  | [] => Or.inl rfl
  | [_] => Or.inr (Or.inr rfl)
  | [_, _] => Or.inr (Or.inl rfl)
  | _ :: _ :: _ :: rest => b64Pad_shape rest

theorem btoa_length_mod4 : ∀ bs : List Nat, (b64Body bs ++ b64Pad bs).length % 4 = 0
  | [] => rfl
  | [_] => by simp [b64Body, b64Pad]
  | [_, _] => by simp [b64Body, b64Pad]
  | b0 :: b1 :: b2 :: rest => by
      have ih := btoa_length_mod4 rest
      simp only [b64Body, b64Pad, List.length_append, List.length_cons] at ih ⊢
      omega

theorem dropOneEq_of_no_pad (cs : List Char) (h : ∀ c ∈ cs, c ≠ '=') :
    dropOneEq cs = cs := by
  rw [dropOneEq]
  cases hl : cs.getLast? with
  | none => simp
  | some c =>
      have hc : c ∈ cs := List.mem_of_mem_getLast? hl
      simp [h c hc]

theorem dropOneEq_concat_pad (cs : List Char) :
    dropOneEq (cs ++ ['=']) = cs := by
  rw [dropOneEq, List.getLast?_concat, if_pos rfl, List.dropLast_concat]

theorem dropTrailingEqs_append_pad (body pad : List Char)
    (hbody : ∀ c ∈ body, c ≠ '=')
    (hpad : pad = [] ∨ pad = ['='] ∨ pad = ['=', '=']) :
    dropTrailingEqs (body ++ pad) = body := by
  rcases hpad with rfl | rfl | rfl
  · rw [List.append_nil, dropTrailingEqs,
      dropOneEq_of_no_pad body hbody, dropOneEq_of_no_pad body hbody]
  · rw [dropTrailingEqs, dropOneEq_concat_pad, dropOneEq_of_no_pad body hbody]
  · rw [dropTrailingEqs,
      show body ++ ['=', '='] = (body ++ ['=']) ++ ['='] by simp,
      dropOneEq_concat_pad, dropOneEq_concat_pad]

theorem atobCore_b64Body : ∀ (bs : List Nat), (∀ b ∈ bs, b < 256) →
    atobCore (b64Body bs) = some bs
  | [], _ => rfl
  | [b0], h => by
      have hb0 : b0 < 256 := h b0 (by simp)
      simp only [b64Body, atobCore]
      rw [b64Index_b64Char _ (by omega), b64Index_b64Char _ (by omega)]
      simp
      omega
  | [b0, b1], h => by
      have hb0 : b0 < 256 := h b0 (by simp)
      have hb1 : b1 < 256 := h b1 (by simp)
      simp only [b64Body, atobCore]
      rw [b64Index_b64Char _ (by omega), b64Index_b64Char _ (by omega),
        b64Index_b64Char _ (by omega)]
      simp
      omega
  | b0 :: b1 :: b2 :: rest, h => by
      have hb0 : b0 < 256 := h b0 (by simp)
      have hb1 : b1 < 256 := h b1 (by simp)
      have hb2 : b2 < 256 := h b2 (by simp)
      have ih := atobCore_b64Body rest (fun b hb => h b (by simp [hb]))
      simp only [b64Body, atobCore]
      rw [b64Index_b64Char _ (by omega), b64Index_b64Char _ (by omega),
        b64Index_b64Char _ (by omega), b64Index_b64Char _ (by omega), ih]
      simp
      omega

theorem filter_ws_btoa (bs : List Nat) (h : ∀ b ∈ bs, b < 256) :
    (b64Body bs ++ b64Pad bs).filter (fun c => !isAsciiWs c) =
      b64Body bs ++ b64Pad bs := by
  rw [List.filter_eq_self]
  intro c hc
  rcases List.mem_append.1 hc with hbody | hpad
  · obtain ⟨n, hn, rfl⟩ := b64Body_mem_spec bs h c hbody
    simp [b64Char_not_ws n hn]
  · have hce : c = '=' := by
      rcases b64Pad_shape bs with hp | hp | hp <;> rw [hp] at hpad <;> simpa using hpad
    subst hce
    decide

theorem atob_btoa (bs : List Nat) (h : ∀ b ∈ bs, b < 256) :
    atob (btoa bs) = some bs := by
  show atobCore (stripPad ((b64Body bs ++ b64Pad bs).filter (fun c => !isAsciiWs c))) =
    some bs
  rw [filter_ws_btoa bs h, stripPad, if_pos (btoa_length_mod4 bs),
    dropTrailingEqs_append_pad _ _
      (fun c hc => by
        obtain ⟨n, hn, rfl⟩ := b64Body_mem_spec bs h c hc
        exact b64Char_ne_pad n hn)
      (b64Pad_shape bs)]
  exact atobCore_b64Body bs h

/-! ## Claim C2 — UTF-8 side -/

theorem char_toNat_valid (c : Char) :
    c.toNat < 0xD800 ∨ (0xE000 ≤ c.toNat ∧ c.toNat < 0x110000) := by
  have h := c.valid
  rw [UInt32.isValidChar, Nat.isValidChar] at h
  exact h

theorem utf8EncodeChar_lt256 (c : Char) : ∀ b ∈ utf8EncodeChar c.toNat, b < 256 := by
  have hv := char_toNat_valid c
  have hlt : c.toNat < 0x110000 := by rcases hv with h | ⟨h1, h2⟩ <;> omega
  intro b hb
  rw [utf8EncodeChar] at hb
  split_ifs at hb with h1 h2 h3
  · rcases (by simpa using hb : b = c.toNat)
    omega
  · rcases (by simpa using hb :
      b = 0xC0 + c.toNat / 64 ∨ b = 0x80 + c.toNat % 64) with rfl | rfl <;> omega
  · rcases (by simpa using hb :
      b = 0xE0 + c.toNat / 4096 ∨ b = 0x80 + c.toNat / 64 % 64 ∨
        b = 0x80 + c.toNat % 64) with rfl | rfl | rfl <;> omega
  · rcases (by simpa using hb :
      b = 0xF0 + c.toNat / 262144 ∨ b = 0x80 + c.toNat / 4096 % 64 ∨
        b = 0x80 + c.toNat / 64 % 64 ∨ b = 0x80 + c.toNat % 64) with
      rfl | rfl | rfl | rfl <;> omega

theorem utf8Encode_lt256 (s : String) : ∀ b ∈ utf8Encode s, b < 256 := by
  intro b hb
  rw [utf8Encode, utf8EncodeChars, List.mem_flatMap] at hb
  obtain ⟨c, _, hbc⟩ := hb
  exact utf8EncodeChar_lt256 c b hbc


theorem utf8DecodeList_cons1 (b0 : Nat) (rest : List Nat) (h : b0 < 0x80) :
    utf8DecodeList (b0 :: rest) =
      (utf8DecodeList rest).map (fun cs => Char.ofNat b0 :: cs) := by
  rcases rest with _ | ⟨b1, _ | ⟨b2, _ | ⟨b3, rest2⟩⟩⟩
  · rw [utf8DecodeList.eq_2, if_pos h]
    rfl
  · rw [utf8DecodeList.eq_3, if_pos h]
  · rw [utf8DecodeList.eq_4, if_pos h]
  · rw [utf8DecodeList.eq_5, if_pos h]

theorem utf8DecodeList_cons2 (b0 b1 : Nat) (rest : List Nat)
    (h1 : ¬ b0 < 0x80) (h2 : b0 < 0xE0)
    (h3 : (0xC2 ≤ b0 && isCont b1) = true) :
    utf8DecodeList (b0 :: b1 :: rest) =
      (utf8DecodeList rest).map
        (fun cs => Char.ofNat ((b0 - 0xC0) * 64 + (b1 - 0x80)) :: cs) := by
  rcases rest with _ | ⟨b2, _ | ⟨b3, rest2⟩⟩
  · rw [utf8DecodeList.eq_3, if_neg h1, if_pos h2, if_pos h3]
    rfl
  · rw [utf8DecodeList.eq_4, if_neg h1, if_pos h2, if_pos h3]
  · rw [utf8DecodeList.eq_5, if_neg h1, if_pos h2, if_pos h3]

theorem utf8DecodeList_cons3 (b0 b1 b2 : Nat) (rest : List Nat)
    (h1 : ¬ b0 < 0x80) (h2 : ¬ b0 < 0xE0) (h3 : b0 < 0xF0)
    (h4 : (isCont b1 && isCont b2 &&
        0x800 ≤ (b0 - 0xE0) * 4096 + (b1 - 0x80) * 64 + (b2 - 0x80) &&
        ((b0 - 0xE0) * 4096 + (b1 - 0x80) * 64 + (b2 - 0x80) < 0xD800 ||
          0xE000 ≤ (b0 - 0xE0) * 4096 + (b1 - 0x80) * 64 + (b2 - 0x80))) = true) :
    utf8DecodeList (b0 :: b1 :: b2 :: rest) =
      (utf8DecodeList rest).map
        (fun cs => Char.ofNat ((b0 - 0xE0) * 4096 + (b1 - 0x80) * 64 + (b2 - 0x80)) :: cs) := by
  rcases rest with _ | ⟨b3, rest2⟩
  · rw [utf8DecodeList.eq_4, if_neg h1, if_neg h2, if_pos h3]
    dsimp only
    rw [if_pos h4]
    rfl
  · rw [utf8DecodeList.eq_5, if_neg h1, if_neg h2, if_pos h3]
    dsimp only
    rw [if_pos h4]

theorem utf8DecodeList_cons4 (b0 b1 b2 b3 : Nat) (rest : List Nat)
    (h1 : ¬ b0 < 0x80) (h2 : ¬ b0 < 0xE0) (h3 : ¬ b0 < 0xF0) (h4 : b0 < 0xF8)
    (h5 : (isCont b1 && isCont b2 && isCont b3 &&
        0x10000 ≤ (b0 - 0xF0) * 262144 + (b1 - 0x80) * 4096 + (b2 - 0x80) * 64 + (b3 - 0x80) &&
        (b0 - 0xF0) * 262144 + (b1 - 0x80) * 4096 + (b2 - 0x80) * 64 + (b3 - 0x80) <
          0x110000) = true) :
    utf8DecodeList (b0 :: b1 :: b2 :: b3 :: rest) =
      (utf8DecodeList rest).map
        (fun cs => Char.ofNat ((b0 - 0xF0) * 262144 + (b1 - 0x80) * 4096 +
          (b2 - 0x80) * 64 + (b3 - 0x80)) :: cs) := by
  rw [utf8DecodeList.eq_5, if_neg h1, if_neg h2, if_neg h3, if_pos h4]
  dsimp only
  rw [if_pos h5]

theorem utf8DecodeList_cons_encode (c : Char) (tl : List Nat) :
    utf8DecodeList (utf8EncodeChar c.toNat ++ tl) =
      (utf8DecodeList tl).map (fun cs => c :: cs) := by
  have hv := char_toNat_valid c
  by_cases h1 : c.toNat < 0x80
  · rw [utf8EncodeChar, if_pos h1]
    simp only [List.cons_append, List.nil_append]
    rw [utf8DecodeList_cons1 _ _ h1, Char.ofNat_toNat]
  · by_cases h2 : c.toNat < 0x800
    · rw [utf8EncodeChar, if_neg h1, if_pos h2]
      simp only [List.cons_append, List.nil_append]
      rw [utf8DecodeList_cons2 _ _ _ (by omega) (by omega)
        (by simp only [isCont, Bool.and_eq_true, decide_eq_true_eq]; omega)]
      have harg : (0xC0 + c.toNat / 64 - 0xC0) * 64 + (0x80 + c.toNat % 64 - 0x80) =
          c.toNat := by omega
      rw [harg, Char.ofNat_toNat]
    · by_cases h3 : c.toNat < 0x10000
      · rw [utf8EncodeChar, if_neg h1, if_neg h2, if_pos h3]
        simp only [List.cons_append, List.nil_append]
        rw [utf8DecodeList_cons3 _ _ _ _ (by omega) (by omega) (by omega)
          (by simp only [isCont, Bool.and_eq_true, Bool.or_eq_true, decide_eq_true_eq]
              omega)]
        have harg : (0xE0 + c.toNat / 4096 - 0xE0) * 4096 +
            (0x80 + c.toNat / 64 % 64 - 0x80) * 64 + (0x80 + c.toNat % 64 - 0x80) =
            c.toNat := by omega
        rw [harg, Char.ofNat_toNat]
      · have hlt : c.toNat < 0x110000 := by rcases hv with h | ⟨ha, hb⟩ <;> omega
        rw [utf8EncodeChar, if_neg h1, if_neg h2, if_neg h3]
        simp only [List.cons_append, List.nil_append]
        rw [utf8DecodeList_cons4 _ _ _ _ _ (by omega) (by omega) (by omega) (by omega)
          (by simp only [isCont, Bool.and_eq_true, decide_eq_true_eq]
              omega)]
        have harg : (0xF0 + c.toNat / 262144 - 0xF0) * 262144 +
            (0x80 + c.toNat / 4096 % 64 - 0x80) * 4096 +
            (0x80 + c.toNat / 64 % 64 - 0x80) * 64 + (0x80 + c.toNat % 64 - 0x80) =
            c.toNat := by omega
        rw [harg, Char.ofNat_toNat]

theorem utf8DecodeList_encodeChars (cs : List Char) :
    utf8DecodeList (utf8EncodeChars cs) = some cs := by
  induction cs with
  | nil => rfl
  | cons c tl ih =>
      show utf8DecodeList ((c :: tl).flatMap (fun d => utf8EncodeChar d.toNat)) = _
      rw [List.flatMap_cons]
      rw [utf8DecodeList_cons_encode c (tl.flatMap (fun d => utf8EncodeChar d.toNat))]
      show (utf8DecodeList (utf8EncodeChars tl)).map (fun l => c :: l) = _
      rw [ih]
      rfl

theorem utf8EncodeChar_ne_nil (n : Nat) : utf8EncodeChar n ≠ [] := by
  rw [utf8EncodeChar]
  split_ifs <;> simp

theorem b64Body_ne_nil : ∀ bs : List Nat, bs ≠ [] → b64Body bs ≠ []
  | [], h => absurd rfl h
  | [b0], _ => by simp [b64Body]
  | [b0, b1], _ => by simp [b64Body]
  | b0 :: b1 :: b2 :: rest, _ => by simp [b64Body]

/-- C2: for every string, decoding the encoding returns the original string
in `data` with no `error` — including the empty string and strings with
multi-byte (CJK, emoji) characters, whose UTF-8 sequences round-trip through
the Base64 layer byte-for-byte. -/
theorem decode_encode_roundtrip (s : String) :
    decodeBase64ToUtf8 (encodeUtf8ToBase64 s) = { data := some s, error := none } := by
  by_cases hs : s = ""
  · subst hs
    rfl
  · simp only [encodeUtf8ToBase64]
    rw [if_neg hs]
    have hdata : s.data ≠ [] := by
      intro hd
      apply hs
      cases s with
      | mk l =>
          have hl : l = [] := hd
          rw [hl]
    have hbytes : utf8Encode s ≠ [] := by
      rw [utf8Encode, utf8EncodeChars]
      cases hd : s.data with
      | nil => exact absurd hd hdata
      | cons c tl =>
          intro hnil
          rw [List.flatMap_cons] at hnil
          exact utf8EncodeChar_ne_nil c.toNat (List.append_eq_nil.1 hnil).1
    have hb64 : btoa (utf8Encode s) ≠ "" := by
      rw [btoa]
      intro hmk
      have hl : b64Body (utf8Encode s) ++ b64Pad (utf8Encode s) = [] := by
        simpa using congrArg String.data hmk
      exact b64Body_ne_nil _ hbytes (List.append_eq_nil.1 hl).1
    simp only [decodeBase64ToUtf8]
    rw [if_neg hb64, atob_btoa _ (utf8Encode_lt256 s)]
    dsimp only
    rw [show utf8DecodeList (utf8Encode s) = some s.data from
      utf8DecodeList_encodeChars s.data]

/-! ## Claim C9 — decode error behaviour -/

theorem atobCore_none_mod1 : ∀ cs : List Char, cs.length % 4 = 1 → atobCore cs = none
  | [], h => by simp at h
  | [_], _ => rfl
  | [_, _], h => by simp at h
  | [_, _, _], h => by simp at h
  | c0 :: c1 :: c2 :: c3 :: rest, h => by
      have hr : rest.length % 4 = 1 := by
        simp only [List.length_cons] at h
        omega
      have ih := atobCore_none_mod1 rest hr
      simp only [atobCore, ih]
      cases b64Index c0 <;> cases b64Index c1 <;> cases b64Index c2 <;>
        cases b64Index c3 <;> rfl

theorem atobCore_none_of_bad : ∀ cs : List Char, ∀ c ∈ cs, b64Index c = none →
    atobCore cs = none
  | [], c, hc, _ => absurd hc (by simp)
  | [_], _, _, _ => rfl
  | [c0, c1], c, hc, hbad => by
      rcases (by simpa using hc : c = c0 ∨ c = c1) with rfl | rfl <;>
        simp [atobCore, hbad]
  | [c0, c1, c2], c, hc, hbad => by
      rcases (by simpa using hc : c = c0 ∨ c = c1 ∨ c = c2) with rfl | rfl | rfl <;>
        simp [atobCore, hbad]
  | c0 :: c1 :: c2 :: c3 :: rest, c, hc, hbad => by
      rcases (by simpa using hc : c = c0 ∨ c = c1 ∨ c = c2 ∨ c = c3 ∨ c ∈ rest) with
        rfl | rfl | rfl | rfl | hmem
      · simp [atobCore, hbad]
      · simp [atobCore, hbad]
      · simp [atobCore, hbad]
      · simp [atobCore, hbad]
      · have ih := atobCore_none_of_bad rest c hmem hbad
        simp only [atobCore, ih]
        cases b64Index c0 <;> cases b64Index c1 <;> cases b64Index c2 <;>
          cases b64Index c3 <;> rfl

/-- C9 counterexample: a single space is outside the Base64 alphabet, yet
decoding succeeds with `data = ""` and no error: the forgiving decoder
strips ASCII whitespace before validating. -/
theorem decodeBase64_whitespace_cex :
    (" " : String) ≠ "" ∧
    ' ' ∈ (" " : String).data ∧
    b64Index ' ' = none ∧
    ' ' ≠ '=' ∧
    decodeBase64ToUtf8 " " = { data := some "", error := none } := by
  refine ⟨by decide, by decide, by decide, by decide, ?_⟩
  decide

/-- C9 amended: the empty string decodes to `data = ""`; for a non-empty
input, if after removing ASCII whitespace and permitted trailing padding
some character is outside the Base64 alphabet (this includes every
misplaced `=`), or the remaining length is ≡ 1 mod 4 (malformed padding),
the result carries a diagnostic `error` and no `data`; whitespace itself is
tolerated; and for every input the total function returns exactly one of
`data` or `error` — it never throws. -/
theorem decodeBase64ToUtf8_error_cases (s : String) :
    decodeBase64ToUtf8 "" = { data := some "", error := none } ∧
    (s ≠ "" →
      ((∃ c ∈ stripPad (s.data.filter (fun c => !isAsciiWs c)), b64Index c = none) ∨
        (stripPad (s.data.filter (fun c => !isAsciiWs c))).length % 4 = 1) →
      decodeBase64ToUtf8 s = { data := none, error := some "InvalidCharacterError" }) ∧
    ((∃ d, (decodeBase64ToUtf8 s).data = some d ∧ (decodeBase64ToUtf8 s).error = none) ∨
      ((decodeBase64ToUtf8 s).data = none ∧
        ∃ m, (decodeBase64ToUtf8 s).error = some m)) := by
  refine ⟨rfl, ?_, ?_⟩
  · intro hs hbad
    have hatob : atob s = none := by
      rw [atob]
      rcases hbad with ⟨c, hc, hidx⟩ | hlen
      · exact atobCore_none_of_bad _ c hc hidx
      · exact atobCore_none_mod1 _ hlen
    simp only [decodeBase64ToUtf8]
    rw [if_neg hs, hatob]
  · by_cases hs : s = ""
    · subst hs
      exact Or.inl ⟨"", rfl, rfl⟩
    · simp only [decodeBase64ToUtf8]
      rw [if_neg hs]
      cases h1 : atob s with
      | none => exact Or.inr ⟨rfl, "InvalidCharacterError", rfl⟩
      | some bytes =>
          dsimp only
          cases h2 : utf8DecodeList bytes with
          | none => exact Or.inr ⟨rfl, "URI malformed", rfl⟩
          | some cs => exact Or.inl ⟨String.mk cs, rfl, rfl⟩

/-- Witness for C9: `"$$$$"` (invalid characters) yields an error, and a
lone `"A"` (length ≡ 1 mod 4 after stripping) yields an error. -/
theorem decodeBase64ToUtf8_error_cases_witness :
    decodeBase64ToUtf8 "$$$$" = { data := none, error := some "InvalidCharacterError" } ∧
    decodeBase64ToUtf8 "A" = { data := none, error := some "InvalidCharacterError" } :=
  ⟨(decodeBase64ToUtf8_error_cases "$$$$").2.1 (by decide)
      (Or.inl ⟨'$', by decide, by decide⟩),
   (decodeBase64ToUtf8_error_cases "A").2.1 (by decide) (Or.inr (by decide))⟩
